import Mathlib

/-!
Verification of the SMBIOS firmware-table walker (`src/sysinfo.hpp`,
`Smbios_firmware_table`) and the SAFEARRAY/VARIANT interop layer
(`src/combase.hpp`, `Basic_safe_array` / `Basic_variant`) of the
dmitigr winbase library, via a shallow embedding in Lean.

The raw SMBIOS structure table is modelled as a `List Nat` of bytes
(the bytes following the 8-byte `Header`); `byteAt` models a raw byte
read (`*ptr`), with reads past the buffer end yielding 0.  Offsets are
relative to `first_structure()`, matching the pointer arithmetic
`ptr - reinterpret_cast<const char*>(fst)` of the source.
-/

namespace Winbase

/-- A raw byte read at index `i` of the structure table. -/
def byteAt (tbl : List Nat) (i : Nat) : Nat :=
  tbl.getD i 0

/-- `Structure::type`: first byte of the 4-byte structure prefix. -/
def typeAt (tbl : List Nat) (s : Nat) : Nat :=
  byteAt tbl s

/-- `Structure::length`: second byte of the 4-byte structure prefix. -/
def lenAt (tbl : List Nat) (s : Nat) : Nat :=
  byteAt tbl (s + 1)

/-- `Structure::handle`: little-endian WORD at bytes 2..3 of the prefix. -/
def handleAt (tbl : List Nat) (s : Nat) : Nat :=
  byteAt tbl (s + 2) + 256 * byteAt tbl (s + 3)

/-- `Smbios_firmware_table::unformed_section`: the unformed (string-table)
region of the structure at offset `s` starts at `s + s->length`. -/
def unformedSection (tbl : List Nat) (s : Nat) : Nat :=
  s + lenAt tbl s

/-- The loop body of `Smbios_firmware_table::next_structure`, recursing on a
fuel counter.  `L` is `header().length`, `p` the current scan offset
(relative to `first_structure()`), `prevZero` the `is_prev_char_zero` flag.
The loop guard `ptr + 1 - fst < hdr.length` is `p + 1 < L`.  The initial
fuel `L - p` dominates the iteration count, so `nextScan` below agrees with
the unbounded loop (see `nextScan_unfold`). -/
def scanGo (tbl : List Nat) (L : Nat) : Nat → Nat → Bool → Option Nat
  | 0, _, _ => none
  | fuel + 1, p, prevZero =>
    if p + 1 < L then
      if byteAt tbl p = 0 then
        if prevZero then some (p + 1)
        else scanGo tbl L fuel (p + 1) true
      else scanGo tbl L fuel (p + 1) false
    else none

/-- The scan loop of `next_structure`, entered at offset `p`. -/
def nextScan (tbl : List Nat) (L p : Nat) (prevZero : Bool) : Option Nat :=
  scanGo tbl L (L - p) p prevZero

/-- `Smbios_firmware_table::next_structure`: scan from the end of the formed
region of the structure at `s`; `none` models the null return. -/
def nextStructure (tbl : List Nat) (L s : Nat) : Option Nat :=
  nextScan tbl L (unformedSection tbl s) false

/-- The sequence of table indices whose bytes the scan loop of
`next_structure` dereferences (`*ptr`), in order. -/
def scanReadsGo (tbl : List Nat) (L : Nat) : Nat → Nat → Bool → List Nat
  | 0, _, _ => []
  | fuel + 1, p, prevZero =>
    if p + 1 < L then
      p ::
        (if byteAt tbl p = 0 then
          if prevZero then []
          else scanReadsGo tbl L fuel (p + 1) true
        else scanReadsGo tbl L fuel (p + 1) false)
    else []

/-- The indices read by the scan loop when entered at offset `p`. -/
def nextScanReads (tbl : List Nat) (L p : Nat) (prevZero : Bool) : List Nat :=
  scanReadsGo tbl L (L - p) p prevZero

/-- Modelled from the spec wording of the traversal algorithm: scanning from
`p0`, the next structure starts just after the first occurrence of two
consecutive NUL bytes, and there is no next structure if the scan would
pass `header.length` bytes from the table start (reading the byte at `q+1`
requires `q + 2 < L` under the loop guard). -/
def specNextFrom (tbl : List Nat) (L p0 : Nat) : Option Nat :=
  match (List.range' p0 (L - p0)).find?
      (fun q => byteAt tbl q == 0 && byteAt tbl (q + 1) == 0) with
  | none => none
  | some q => if q + 2 < L then some (q + 2) else none

/-- Spec-level `next_structure`: the scan starts at `s + s->length`. -/
def specNextStructure (tbl : List Nat) (L s : Nat) : Option Nat :=
  specNextFrom tbl L (unformedSection tbl s)

theorem nextScan_unfold (tbl : List Nat) (L p : Nat) (b : Bool) :
    nextScan tbl L p b =
      if p + 1 < L then
        if byteAt tbl p = 0 then
          if b then some (p + 1) else nextScan tbl L (p + 1) true
        else nextScan tbl L (p + 1) false
      else none := by
  unfold nextScan
  cases hf : L - p with
  | zero =>
    have hple : L ≤ p := Nat.le_of_sub_eq_zero hf
    have : ¬ p + 1 < L := by omega
    simp [scanGo, this]
  | succ f =>
    have hfe : L - (p + 1) = f := by omega
    simp only [scanGo, hfe]

theorem nextScanReads_unfold (tbl : List Nat) (L p : Nat) (b : Bool) :
    nextScanReads tbl L p b =
      if p + 1 < L then
        p ::
          (if byteAt tbl p = 0 then
            if b then [] else nextScanReads tbl L (p + 1) true
          else nextScanReads tbl L (p + 1) false)
      else [] := by
  unfold nextScanReads
  cases hf : L - p with
  | zero =>
    have hple : L ≤ p := Nat.le_of_sub_eq_zero hf
    have : ¬ p + 1 < L := by omega
    simp [scanReadsGo, this]
  | succ f =>
    have hfe : L - (p + 1) = f := by omega
    simp only [scanReadsGo, hfe]

/-- Every byte the scan loop reads lies strictly below `header.length`. -/
theorem scanReadsGo_lt (tbl : List Nat) (L : Nat) :
    ∀ fuel p b, ∀ i ∈ scanReadsGo tbl L fuel p b, i < L := by
  intro fuel
  induction fuel with
  | zero => intro p b i hi; simp [scanReadsGo] at hi
  | succ f ih =>
    intro p b i hi
    rw [scanReadsGo] at hi
    by_cases hg : p + 1 < L
    · rw [if_pos hg] at hi
      rcases List.mem_cons.mp hi with h | h
      · omega
      · by_cases hz : byteAt tbl p = 0
        · rw [if_pos hz] at h
          cases b with
          | true => simp at h
          | false => exact ih (p + 1) true i h
        · rw [if_neg hz] at h
          exact ih (p + 1) false i h
    · rw [if_neg hg] at hi
      simp at hi

/-- If fewer than three byte positions remain below `L`, no next structure
can be reported: the returned offset `q + 2` would reach `L`. -/
theorem specNextFrom_none_of_le (tbl : List Nat) (L p : Nat) (h : L ≤ p + 2) :
    specNextFrom tbl L p = none := by
  unfold specNextFrom
  cases hfind : (List.range' p (L - p)).find?
      (fun q => byteAt tbl q == 0 && byteAt tbl (q + 1) == 0) with
  | none => rfl
  | some q =>
    have hq : q ∈ List.range' p (L - p) := List.mem_of_find?_eq_some hfind
    have hpq : p ≤ q := (List.mem_range'_1.mp hq).1
    have : ¬ q + 2 < L := by omega
    simp [this]

/-- Loop-invariant characterisation of the scan: with `is_prev_char_zero`
false it computes `specNextFrom`; with the flag true it additionally
recognises a terminator whose first NUL was the previous byte. -/
theorem scan_eq_specAux (tbl : List Nat) (L : Nat) :
    ∀ n p, L - p ≤ n →
      (nextScan tbl L p false = specNextFrom tbl L p) ∧
      (nextScan tbl L p true =
        if p + 1 < L ∧ byteAt tbl p = 0 then some (p + 1)
        else specNextFrom tbl L p) := by
  intro n
  induction n with
  | zero =>
    intro p hp
    have hle : L ≤ p := by omega
    have hg : ¬ p + 1 < L := by omega
    have hnone : specNextFrom tbl L p = none := specNextFrom_none_of_le tbl L p (by omega)
    constructor
    · rw [nextScan_unfold, if_neg hg, hnone]
    · rw [nextScan_unfold, if_neg hg, hnone]
      simp [hg]
  | succ n ih =>
    intro p hp
    by_cases hg : p + 1 < L
    · have hrec : L - (p + 1) ≤ n := by omega
      have hsplit : List.range' p (L - p) = p :: List.range' (p + 1) (L - (p + 1)) := by
        have h1 : L - p = (L - (p + 1)) + 1 := by omega
        rw [h1, List.range'_succ]
      by_cases hz : byteAt tbl p = 0
      · by_cases hz1 : byteAt tbl (p + 1) = 0
        · -- terminator found at (p, p+1)
          have hfind : (List.range' p (L - p)).find?
              (fun q => byteAt tbl q == 0 && byteAt tbl (q + 1) == 0) = some p := by
            rw [hsplit]
            exact List.find?_cons_of_pos _ (by simp [hz, hz1])
          have hspec : specNextFrom tbl L p =
              if p + 2 < L then some (p + 2) else none := by
            unfold specNextFrom
            rw [hfind]
          constructor
          · rw [nextScan_unfold, if_pos hg, if_pos hz,
              if_neg Bool.false_ne_true, (ih (p + 1) hrec).2, hspec]
            by_cases hg2 : p + 2 < L
            · rw [if_pos hg2, if_pos ⟨by omega, hz1⟩]
            · have hcon : ¬ (p + 1 + 1 < L ∧ byteAt tbl (p + 1) = 0) := by
                intro hcon; omega
              rw [if_neg hcon, if_neg hg2]
              exact specNextFrom_none_of_le tbl L (p + 1) (by omega)
          · rw [nextScan_unfold, if_pos hg, if_pos hz, if_pos rfl,
              if_pos ⟨hg, hz⟩]
        · -- current byte NUL, next byte not: no terminator at p
          have hfind : (List.range' p (L - p)).find?
              (fun q => byteAt tbl q == 0 && byteAt tbl (q + 1) == 0) =
              (List.range' (p + 1) (L - (p + 1))).find?
              (fun q => byteAt tbl q == 0 && byteAt tbl (q + 1) == 0) := by
            rw [hsplit]
            exact List.find?_cons_of_neg _ (by simp [hz1])
          have hspec : specNextFrom tbl L p = specNextFrom tbl L (p + 1) := by
            unfold specNextFrom
            rw [hfind]
          have hcon : ¬ (p + 1 + 1 < L ∧ byteAt tbl (p + 1) = 0) := by
            intro hcon; exact hz1 hcon.2
          constructor
          · rw [nextScan_unfold, if_pos hg, if_pos hz,
              if_neg Bool.false_ne_true, (ih (p + 1) hrec).2, if_neg hcon, hspec]
          · rw [nextScan_unfold, if_pos hg, if_pos hz, if_pos rfl,
              if_pos ⟨hg, hz⟩]
      · -- current byte not NUL
        have hfind : (List.range' p (L - p)).find?
            (fun q => byteAt tbl q == 0 && byteAt tbl (q + 1) == 0) =
            (List.range' (p + 1) (L - (p + 1))).find?
            (fun q => byteAt tbl q == 0 && byteAt tbl (q + 1) == 0) := by
          rw [hsplit]
          exact List.find?_cons_of_neg _ (by simp [hz])
        have hspec : specNextFrom tbl L p = specNextFrom tbl L (p + 1) := by
          unfold specNextFrom
          rw [hfind]
        have hcon : ¬ (p + 1 < L ∧ byteAt tbl p = 0) := by
          intro hcon; exact hz hcon.2
        constructor
        · rw [nextScan_unfold, if_pos hg, if_neg hz, (ih (p + 1) hrec).1, hspec]
        · rw [nextScan_unfold, if_pos hg, if_neg hz, (ih (p + 1) hrec).1,
            if_neg hcon, hspec]
    · have hnone : specNextFrom tbl L p = none := specNextFrom_none_of_le tbl L p (by omega)
      constructor
      · rw [nextScan_unfold, if_neg hg, hnone]
      · rw [nextScan_unfold, if_neg hg, hnone]
        simp [hg]

theorem nextScan_eq_spec (tbl : List Nat) (L p : Nat) :
    nextScan tbl L p false = specNextFrom tbl L p :=
  (scan_eq_specAux tbl L (L - p) p (Nat.le_refl _)).1

/-- A reported next structure lies strictly after the scan start and
strictly inside the table. -/
theorem nextScan_some_bounds (tbl : List Nat) (L p : Nat) (n : Nat)
    (h : nextScan tbl L p false = some n) : p < n ∧ n < L := by
  rw [nextScan_eq_spec] at h
  unfold specNextFrom at h
  cases hfind : (List.range' p (L - p)).find?
      (fun q => byteAt tbl q == 0 && byteAt tbl (q + 1) == 0) with
  | none => rw [hfind] at h; exact absurd h (by simp)
  | some q =>
    rw [hfind] at h
    dsimp only at h
    have hq : q ∈ List.range' p (L - p) := List.mem_of_find?_eq_some hfind
    have hpq : p ≤ q := (List.mem_range'_1.mp hq).1
    by_cases hg : q + 2 < L
    · rw [if_pos hg] at h
      cases h
      omega
    · rw [if_neg hg] at h
      exact absurd h (by simp)

theorem nextStructure_some_bounds (tbl : List Nat) (L s n : Nat)
    (h : nextStructure tbl L s = some n) : s < n ∧ n < L := by
  have hb := nextScan_some_bounds tbl L (unformedSection tbl s) n h
  unfold unformedSection at hb
  omega

/-- The enumeration of structure offsets produced by repeatedly applying
`next_structure` starting from offset `s` (relative to `first_structure()`),
as performed by the loop of `Smbios_firmware_table::structure`.  Recursion
is on a fuel counter; fuel `L - s` is sufficient (`structuresGo_fuel`). -/
def structuresGo (tbl : List Nat) (L : Nat) : Nat → Nat → List Nat
  | 0, s => [s]
  | fuel + 1, s =>
    s ::
      (match nextStructure tbl L s with
      | none => []
      | some n => structuresGo tbl L fuel n)

/-- All structure offsets visited by `Smbios_firmware_table::structure`
(the first structure is always visited, then successive `next_structure`
results until null). -/
def structures (tbl : List Nat) (L : Nat) : List Nat :=
  structuresGo tbl L L 0

/-- When the remaining fuel exceeds zero, `next_structure` from an offset
at or past the table length reports no structure. -/
theorem nextStructure_none_of_le (tbl : List Nat) (L s : Nat) (h : L ≤ s) :
    nextStructure tbl L s = none := by
  unfold nextStructure
  rw [nextScan_eq_spec]
  exact specNextFrom_none_of_le tbl L (unformedSection tbl s)
    (by unfold unformedSection; omega)

/-- Fuel irrelevance: any fuel at least `L - s` yields the same
enumeration, so `structures` equals the unbounded loop of the source. -/
theorem structuresGo_fuel (tbl : List Nat) (L : Nat) :
    ∀ f g s, L - s ≤ f → L - s ≤ g →
      structuresGo tbl L f s = structuresGo tbl L g s := by
  intro f
  induction f with
  | zero =>
    intro g s hf hg
    have hs : L ≤ s := by omega
    have hnone := nextStructure_none_of_le tbl L s hs
    cases g with
    | zero => rfl
    | succ g => simp [structuresGo, hnone]
  | succ f ih =>
    intro g s hf hg
    by_cases hs : L ≤ s
    · have hnone := nextStructure_none_of_le tbl L s hs
      cases g with
      | zero => simp [structuresGo, hnone]
      | succ g => simp [structuresGo, hnone]
    · have hg0 : 0 < g := by omega
      obtain ⟨g', rfl⟩ : ∃ g', g = g' + 1 := ⟨g - 1, by omega⟩
      cases hnext : nextStructure tbl L s with
      | none => simp [structuresGo, hnext]
      | some n =>
        have hb := nextStructure_some_bounds tbl L s n hnext
        have h1 : L - n ≤ f := by omega
        have h2 : L - n ≤ g' := by omega
        simp only [structuresGo, hnext]
        rw [ih g' n h1 h2]

/-- The structure-lookup loop of `Smbios_firmware_table::structure`:
the offset of the first structure whose `type` byte equals `t`. -/
def findStructure (tbl : List Nat) (L : Nat) (t : Nat) : Option Nat :=
  (structures tbl L).find? (fun s => typeAt tbl s == t)

-- -----------------------------------------------------------------------------
-- String field decoding (`Smbios_firmware_table::field<std::string>`)
-- -----------------------------------------------------------------------------

/-- The NUL-terminated byte string starting at offset `p`
(`std::string_view view{str}` / `std::string{str}`). -/
def cstr (tbl : List Nat) (p : Nat) : List Nat :=
  (tbl.drop p).takeWhile (fun b => b != 0)

/-- The string-table walk of `field<std::string>`: starting at the unformed
section, skip `i` NUL-terminated strings.  After each advance the source
asserts `*str != 0` (`DMITIGR_ASSERT`); a violated assertion is modelled as
an error. -/
def strWalk (tbl : List Nat) : Nat → Nat → Except String Nat
  | p, 0 => .ok p
  | p, i + 1 =>
    let q := p + (cstr tbl p).length + 1
    if byteAt tbl q = 0 then .error "assertion *str != 0 failed"
    else strWalk tbl q i

/-- `field<std::string>` of the structure at offset `s`, for a string field
stored at byte offset `off` of the formed region: read the 1-byte index,
error on index 0, otherwise walk the unformed string table. -/
def fieldString (tbl : List Nat) (s off : Nat) : Except String (List Nat) :=
  let idx := byteAt tbl (s + off)
  if idx = 0 then
    .error "string field references no string"
  else
    match strWalk tbl (unformedSection tbl s) (idx - 1) with
    | .error e => .error e
    | .ok p => .ok (cstr tbl p)

/-- The byte encoding of a string table: strings separated and terminated
by single NUL bytes (the extra table-terminating NUL is part of the
remainder that follows). -/
def joinNul : List (List Nat) → List Nat
  | [] => []
  | t :: tl => t ++ 0 :: joinNul tl

theorem byteAt_eq_drop_getD (tbl : List Nat) (q : Nat) :
    byteAt tbl q = (tbl.drop q).getD 0 0 := by
  unfold byteAt
  rw [List.getD_eq_getElem?_getD, List.getD_eq_getElem?_getD, List.getElem?_drop]
  norm_num

theorem takeWhile_append_nul (t r : List Nat) (h : ∀ b ∈ t, b ≠ 0) :
    (t ++ 0 :: r).takeWhile (fun b => b != 0) = t := by
  induction t with
  | nil => simp [List.takeWhile_cons]
  | cons a t ih =>
    have ha : a ≠ 0 := h a (List.mem_cons_self a t)
    have ht : ∀ b ∈ t, b ≠ 0 := fun b hb => h b (List.mem_cons_of_mem a hb)
    simp only [List.cons_append, List.takeWhile_cons]
    simp [ha, ih ht]

/-- If the bytes from offset `p` start with a NUL-free string `t` followed
by a NUL, `cstr` recovers exactly `t`. -/
theorem cstr_of_drop (tbl : List Nat) (p : Nat) (t r : List Nat)
    (hd : tbl.drop p = t ++ 0 :: r) (h : ∀ b ∈ t, b ≠ 0) :
    cstr tbl p = t := by
  unfold cstr
  rw [hd]
  exact takeWhile_append_nul t r h

/-- Correctness of the string-table walk: if the bytes from `p` encode the
string list `ss` (each string nonempty and NUL-free), skipping `k < |ss|`
strings lands on the `k`-th string. -/
theorem strWalk_spec (tbl : List Nat) :
    ∀ k ss p rest, tbl.drop p = joinNul ss ++ rest →
      (∀ t ∈ ss, t ≠ [] ∧ ∀ b ∈ t, b ≠ 0) →
      k < ss.length →
      ∃ p', strWalk tbl p k = .ok p' ∧ cstr tbl p' = ss.getD k [] := by
  intro k
  induction k with
  | zero =>
    intro ss p rest hd hss hk
    cases ss with
    | nil => simp at hk
    | cons t tl =>
      have hdrop : tbl.drop p = t ++ 0 :: (joinNul tl ++ rest) := by
        simpa [joinNul] using hd
      refine ⟨p, rfl, ?_⟩
      rw [cstr_of_drop tbl p t (joinNul tl ++ rest) hdrop (hss t (by simp)).2]
      rfl
  | succ k ih =>
    intro ss p rest hd hss hk
    cases ss with
    | nil => simp at hk
    | cons t tl =>
      have hdrop : tbl.drop p = t ++ 0 :: (joinNul tl ++ rest) := by
        simpa [joinNul] using hd
      have hct : cstr tbl p = t :=
        cstr_of_drop tbl p t (joinNul tl ++ rest) hdrop (hss t (by simp)).2
      have hdropq : tbl.drop (p + (t.length + 1)) = joinNul tl ++ rest := by
        rw [← List.drop_drop, hdrop]
        have : (t ++ 0 :: (joinNul tl ++ rest)) = (t ++ [0]) ++ (joinNul tl ++ rest) := by
          simp
        rw [this]
        have hlen : t.length + 1 = (t ++ [0]).length := by simp
        rw [hlen, List.drop_left]
      have htl : k < tl.length := by simpa using hk
      obtain ⟨u, tl', rfl⟩ : ∃ u tl', tl = u :: tl' := by
        cases tl with
        | nil => simp at htl
        | cons u tl' => exact ⟨u, tl', rfl⟩
      obtain ⟨b, u', rfl⟩ : ∃ b u', u = b :: u' := by
        cases u with
        | nil => exact absurd rfl (hss [] (by simp)).1
        | cons b u' => exact ⟨b, u', rfl⟩
      -- the byte after the skipped string is the head of the next string
      have hq0 : byteAt tbl (p + (t.length + 1)) ≠ 0 := by
        rw [byteAt_eq_drop_getD, hdropq]
        have hjoin : joinNul ((b :: u') :: tl') ++ rest =
            b :: (u' ++ 0 :: (joinNul tl' ++ rest)) := by
          simp [joinNul]
        rw [hjoin, List.getD_cons_zero]
        exact (hss (b :: u') (by simp)).2 b (by simp)
      rw [show strWalk tbl p (k + 1) =
          (if byteAt tbl (p + (cstr tbl p).length + 1) = 0 then
            .error "assertion *str != 0 failed"
          else strWalk tbl (p + (cstr tbl p).length + 1) k) from rfl]
      rw [hct]
      have harith : p + t.length + 1 = p + (t.length + 1) := by omega
      rw [harith, if_neg hq0]
      have := ih ((b :: u') :: tl') (p + (t.length + 1)) rest hdropq
        (fun x hx => hss x (List.mem_cons_of_mem t hx)) htl
      obtain ⟨p', hw, hc⟩ := this
      exact ⟨p', hw, by rw [hc]; rfl⟩

-- -----------------------------------------------------------------------------
-- Typed record extraction (`bios_info` / `sys_info` / `baseboard_info`)
-- -----------------------------------------------------------------------------

/-- The error thrown by `Smbios_firmware_table::structure` when no structure
of the requested type exists and `no_throw_if_not_found` is false. -/
def notFoundMsg (t : Nat) : String :=
  "no BIOS information structure of type " ++ toString t ++ " found in SMBIOS"

/-- `Smbios_firmware_table::Bios_info` (strings as byte lists). -/
structure BiosInfo where
  type : Nat
  length : Nat
  handle : Nat
  vendor : List Nat
  version : List Nat
  release_date : List Nat
  rom_size : Nat
deriving DecidableEq

/-- `Smbios_firmware_table::Sys_info` (strings as byte lists, UUID as the
16 raw bytes at offset 0x8). -/
structure SysInfo where
  type : Nat
  length : Nat
  handle : Nat
  manufacturer : List Nat
  product : List Nat
  version : List Nat
  serial_number : List Nat
  uuid : List Nat
deriving DecidableEq

/-- `Smbios_firmware_table::Baseboard_info`. -/
structure BaseboardInfo where
  type : Nat
  length : Nat
  handle : Nat
  manufacturer : List Nat
  product : List Nat
  version : List Nat
  serial_number : List Nat
deriving DecidableEq

/-- `field<std::array<BYTE,16>>` at offset 0x8: the 16 raw UUID bytes. -/
def uuidAt (tbl : List Nat) (s : Nat) : List Nat :=
  (List.range 16).map (fun k => byteAt tbl (s + 8 + k))

/-- `Smbios_firmware_table::bios_info`. -/
def biosInfo (tbl : List Nat) (L : Nat) : Except String BiosInfo :=
  match findStructure tbl L 0 with
  | none => .error (notFoundMsg 0)
  | some s => do
    let vendor ← fieldString tbl s 0x4
    let version ← fieldString tbl s 0x5
    let release_date ← fieldString tbl s 0x8
    pure { type := typeAt tbl s, length := lenAt tbl s, handle := handleAt tbl s,
           vendor := vendor, version := version, release_date := release_date,
           rom_size := byteAt tbl (s + 0x9) }

/-- `Smbios_firmware_table::sys_info`. -/
def sysInfo (tbl : List Nat) (L : Nat) : Except String SysInfo :=
  match findStructure tbl L 1 with
  | none => .error (notFoundMsg 1)
  | some s => do
    let manufacturer ← fieldString tbl s 0x4
    let product ← fieldString tbl s 0x5
    let version ← fieldString tbl s 0x6
    let serial_number ← fieldString tbl s 0x7
    pure { type := typeAt tbl s, length := lenAt tbl s, handle := handleAt tbl s,
           manufacturer := manufacturer, product := product, version := version,
           serial_number := serial_number, uuid := uuidAt tbl s }

/-- `Smbios_firmware_table::baseboard_info`: absence of a type-2 structure
is reported as an empty optional, not an error. -/
def baseboardInfo (tbl : List Nat) (L : Nat) : Except String (Option BaseboardInfo) :=
  match findStructure tbl L 2 with
  | none => .ok none
  | some s => do
    let manufacturer ← fieldString tbl s 0x4
    let product ← fieldString tbl s 0x5
    let version ← fieldString tbl s 0x6
    let serial_number ← fieldString tbl s 0x7
    pure (some { type := typeAt tbl s, length := lenAt tbl s, handle := handleAt tbl s,
                 manufacturer := manufacturer, product := product, version := version,
                 serial_number := serial_number })

-- -----------------------------------------------------------------------------
-- Claim theorems: SMBIOS walker
-- -----------------------------------------------------------------------------

/-- C2: the structure scan of `next_structure` never reads a byte at or
beyond `header.length` bytes from the start of the structure table (every
dereferenced index is `< L`), and when the structures' formed plus unformed
regions sum to exactly the table length — i.e. no double-NUL terminator
lies strictly inside the remaining scan range — `next_structure` on the
last structure returns null instead of scanning past the end. -/
theorem C2_scan_never_reads_past_length (tbl : List Nat) (L s : Nat) :
    (∀ i ∈ nextScanReads tbl L (unformedSection tbl s) false, i < L) ∧
    ((∀ q, q < L → unformedSection tbl s ≤ q → q + 2 < L →
        ¬(byteAt tbl q = 0 ∧ byteAt tbl (q + 1) = 0)) →
      nextStructure tbl L s = none) := by
  constructor
  · intro i hi
    exact scanReadsGo_lt tbl L _ _ _ i hi
  · intro hterm
    rw [nextStructure, nextScan_eq_spec]
    unfold specNextFrom
    cases hfind : (List.range' (unformedSection tbl s) (L - unformedSection tbl s)).find?
        (fun q => byteAt tbl q == 0 && byteAt tbl (q + 1) == 0) with
    | none => rfl
    | some q =>
      have hq := List.mem_of_find?_eq_some hfind
      have hpred := List.find?_some hfind
      simp only [Bool.and_eq_true, beq_iff_eq] at hpred
      obtain ⟨h1, h2⟩ := List.mem_range'_1.mp hq
      by_cases hg : q + 2 < L
      · exact absurd hpred (hterm q (by omega) h1 hg)
      · simp [if_neg hg]

/-- C2 witness: a table of length 7 whose single structure (4 formed bytes,
unformed region `"A" NUL NUL`) ends exactly at the table length; the scan
reports no further structure. -/
theorem C2_scan_never_reads_past_length_witness :
    nextStructure [0, 4, 0, 2, 65, 0, 0] 7 0 = none :=
  (C2_scan_never_reads_past_length [0, 4, 0, 2, 65, 0, 0] 7 0).2 (by decide)

/-- C3: `next_structure` starts scanning one byte at a time at
`s + s.length` (the end of the formed region), tracking whether the
previous byte was NUL, and returns the offset immediately following the
first occurrence of two consecutive NUL bytes, or null if the scan would
pass `header.length` bytes from the table start — stated as equality with
the declarative `specNextStructure` transcribed from the spec wording. -/
theorem C3_next_structure_follows_spec (tbl : List Nat) (L s : Nat) :
    nextStructure tbl L s = specNextStructure tbl L s :=
  nextScan_eq_spec tbl L (unformedSection tbl s)

/-- C3 witness: the equivalence at a concrete table with two structures. -/
theorem C3_next_structure_follows_spec_witness :
    nextStructure [0, 4, 0, 0, 65, 0, 0, 1, 4, 0, 0, 0, 0] 13 0 =
      specNextStructure [0, 4, 0, 0, 65, 0, 0, 1, 4, 0, 0, 0, 0] 13 0 :=
  C3_next_structure_follows_spec [0, 4, 0, 0, 65, 0, 0, 1, 4, 0, 0, 0, 0] 13 0

/-- C7: string decoding reads the 1-byte index at the field offset;
index 0 fails with an error (never a silently empty string); index
`i ≥ 1` returns the `(i-1)`-th NUL-terminated string of the structure's
unformed string table. -/
theorem C7_string_field_decoding (tbl : List Nat) (s off : Nat)
    (ss : List (List Nat)) (rest : List Nat)
    (hreg : tbl.drop (unformedSection tbl s) = joinNul ss ++ rest)
    (hss : ∀ t ∈ ss, t ≠ [] ∧ ∀ b ∈ t, b ≠ 0) :
    (byteAt tbl (s + off) = 0 →
      fieldString tbl s off = .error "string field references no string") ∧
    (∀ i, byteAt tbl (s + off) = i → 1 ≤ i → i ≤ ss.length →
      fieldString tbl s off = .ok (ss.getD (i - 1) [])) := by
  constructor
  · intro h0
    simp [fieldString, h0]
  · intro i hi h1 hlen
    obtain ⟨p', hw, hc⟩ :=
      strWalk_spec tbl (i - 1) ss (unformedSection tbl s) rest hreg hss (by omega)
    have hne : ¬ i = 0 := by omega
    simp only [fieldString, hi, if_neg hne, hw, hc]

/-- C7 witness: structure at offset 0 with string index 2 stored at field
offset 3; the second string of the unformed table (`"B"`) is returned. -/
theorem C7_string_field_decoding_witness :
    fieldString [0, 4, 0, 2, 65, 0, 66, 0, 0] 0 3 = .ok [66] :=
  (C7_string_field_decoding [0, 4, 0, 2, 65, 0, 66, 0, 0] 0 3 [[65], [66]] [0]
    (by decide) (by decide)).2 2 (by decide) (by decide) (by decide)

/-- C8: a table with no type-2 structure yields an empty optional from
`baseboard_info` without error, whereas a table with no type-0
(respectively type-1) structure makes `bios_info` (respectively
`sys_info`) fail with a not-found error. -/
theorem C8_baseboard_optional_bios_sys_required (tbl : List Nat) (L : Nat) :
    ((∀ s ∈ structures tbl L, typeAt tbl s ≠ 2) →
      baseboardInfo tbl L = .ok none) ∧
    ((∀ s ∈ structures tbl L, typeAt tbl s ≠ 0) →
      biosInfo tbl L = .error (notFoundMsg 0)) ∧
    ((∀ s ∈ structures tbl L, typeAt tbl s ≠ 1) →
      sysInfo tbl L = .error (notFoundMsg 1)) := by
  refine ⟨fun h => ?_, fun h => ?_, fun h => ?_⟩
  · have hfind : findStructure tbl L 2 = none :=
      List.find?_eq_none.mpr (fun x hx => by simp [h x hx])
    simp [baseboardInfo, hfind]
  · have hfind : findStructure tbl L 0 = none :=
      List.find?_eq_none.mpr (fun x hx => by simp [h x hx])
    simp [biosInfo, hfind]
  · have hfind : findStructure tbl L 1 = none :=
      List.find?_eq_none.mpr (fun x hx => by simp [h x hx])
    simp [sysInfo, hfind]

/-- C8 witness: a table whose only structure has type 3, so no type-0,
type-1 or type-2 structure exists; `baseboard_info` yields the empty
optional. -/
theorem C8_baseboard_optional_bios_sys_required_witness :
    baseboardInfo [3, 4, 0, 0, 65, 0, 0] 7 = .ok none :=
  (C8_baseboard_optional_bios_sys_required [3, 4, 0, 0, 65, 0, 0] 7).1 (by decide)

-- -----------------------------------------------------------------------------
-- SAFEARRAY model (`src/combase.hpp`, `Basic_safe_array`)
-- -----------------------------------------------------------------------------

/-- `SAFEARRAYBOUND`: element count and lower bound of one dimension. -/
structure SafeArrayBound where
  cElements : Nat
  lLbound : Int
deriving DecidableEq

/-- The `SAFEARRAY` header: dimension count, feature flags, element size,
lock count, per-dimension bounds, and the data pointer (modelled as an
opaque address; no claim inspects element storage). -/
structure SafeArrayData where
  cDims : Nat
  fFeatures : Nat
  cbElements : Nat
  cLocks : Nat
  pvData : Nat
  rgsabound : List SafeArrayBound
deriving DecidableEq

/-- `data.rgsabound[d].cElements` as read by the slice machinery. -/
def boundAt (a : SafeArrayData) (d : Nat) : Nat :=
  (a.rgsabound.getD d ⟨0, 0⟩).cElements

/-- `Basic_safe_array::Basic_slice`: dimension depth, flattened offset and
size, exactly the fields `dim_`, `absolute_offset_`, `size_`. -/
structure SliceData where
  dim : Nat
  absolute_offset : Nat
  size : Nat
deriving DecidableEq

/-- `SafeArrayLock`: increments the lock count. -/
def safeArrayLock (a : SafeArrayData) : SafeArrayData :=
  { a with cLocks := a.cLocks + 1 }

/-- `SafeArrayUnlock`: decrements the lock count (the slice destructor). -/
def sliceDtor (a : SafeArrayData) : SafeArrayData :=
  { a with cLocks := a.cLocks - 1 }

/-- `size_` as computed in the slice constructor: the product of
`rgsabound[d].cElements` for `d` from `dim` to `dimension_count() - 1`. -/
def sliceSize (a : SafeArrayData) (dim : Nat) : Nat :=
  (List.range (a.cDims - dim)).foldl (fun r k => r * boundAt a (dim + k)) 1

/-- The slice constructor `Basic_slice(self, dim, slice_offset,
absolute_offset)`: locks the array, computes `size_` and
`absolute_offset_`.  Returns the new slice together with the updated
array state. -/
def sliceCtor (a : SafeArrayData) (dim slice_offset absolute_offset : Nat) :
    SliceData × SafeArrayData :=
  let a1 := safeArrayLock a
  let size := sliceSize a1 dim
  (⟨dim, absolute_offset + slice_offset * size, size⟩, a1)

/-- `Basic_safe_array::slice()`: the zero-dimension slice over the whole
array. -/
def topSlice (a : SafeArrayData) : SliceData × SafeArrayData :=
  sliceCtor a 0 0 0

/-- `Basic_slice::is_vector`: the slice is at the innermost dimension. -/
def is_vector (a : SafeArrayData) (sl : SliceData) : Bool :=
  sl.dim == a.cDims - 1

/-- `Basic_slice::make_slice`: descend one dimension, checking the
dimension bound then the index bound; on failure the array state is
returned unchanged (no slice is constructed, no lock is taken). -/
def make_slice (a : SafeArrayData) (sl : SliceData) (index : Nat) :
    Except String SliceData × SafeArrayData :=
  if ¬(sl.dim + 1 < a.cDims) then
    (.error "Safe_array dimension overflow", a)
  else if ¬(index < boundAt a sl.dim) then
    (.error "Safe_array index overflow", a)
  else
    let r := sliceCtor a (sl.dim + 1) index sl.absolute_offset
    (.ok r.1, r.2)

/-- RAII bracket for a slice: construct, run the body (which always
returns the final array state, as C++ stack unwinding preserves the
array through both normal and exceptional exits), then run the slice
destructor. -/
def withSlice {β : Type} (a : SafeArrayData) (dim off abs : Nat)
    (body : SliceData → SafeArrayData → Except String β × SafeArrayData) :
    Except String β × SafeArrayData :=
  let c := sliceCtor a dim off abs
  let r := body c.1 c.2
  (r.1, sliceDtor r.2)

/-- One descent step threading the array state (used to iterate
`slice.slice(index)`). -/
def descend (st : SafeArrayData × SliceData) (idx : Nat) :
    Except String (SafeArrayData × SliceData) :=
  match make_slice st.1 st.2 idx with
  | (.ok s2, a2) => .ok (a2, s2)
  | (.error e, _) => .error e

/-- Iterated descent through a list of indices. -/
def descendAll (st : SafeArrayData × SliceData) (idxs : List Nat) :
    Except String (SafeArrayData × SliceData) :=
  idxs.foldlM descend st

-- -----------------------------------------------------------------------------
-- `Basic_safe_array` wrapper over a possibly-null handle
-- -----------------------------------------------------------------------------

/-- `Basic_safe_array::data()`: dereference the handle, or fail on a
default-constructed (null) instance. -/
def dataOf (x : Option SafeArrayData) : Except String SafeArrayData :=
  match x with
  | none => .error "cannot use invalid instance of Safe_array"
  | some a => .ok a

/-- `Basic_safe_array::dimension_count()`. -/
def dimension_count (x : Option SafeArrayData) : Except String Nat :=
  (dataOf x).map (fun a => a.cDims)

/-- `Basic_safe_array::features()`. -/
def features (x : Option SafeArrayData) : Except String Nat :=
  (dataOf x).map (fun a => a.fFeatures)

/-- `Basic_safe_array::element_size()`. -/
def element_size (x : Option SafeArrayData) : Except String Nat :=
  (dataOf x).map (fun a => a.cbElements)

/-- `Basic_safe_array::lock_count()`. -/
def lock_count (x : Option SafeArrayData) : Except String Nat :=
  (dataOf x).map (fun a => a.cLocks)

/-- `Basic_safe_array::slice()` at the wrapper level: `SafeArrayLock`
fails on a null handle, so constructing the slice throws. -/
def arraySlice (x : Option SafeArrayData) :
    Except String (SliceData × SafeArrayData) :=
  match x with
  | none => .error "cannot create Safe_array::Slice: cannot lock SAFEARRAY"
  | some a => .ok (sliceCtor a 0 0 0)

/-- `Basic_safe_array::data_ptr()`: returns the raw handle, null included. -/
def data_ptr (x : Option SafeArrayData) : Option SafeArrayData :=
  x

/-- `Basic_safe_array::swap`. -/
def arraySwap (x y : Option SafeArrayData) :
    Option SafeArrayData × Option SafeArrayData :=
  (y, x)

/-- `Basic_safe_array::copy_from` (used by copy construction/assignment):
a null source leaves the destination handle null; a non-null source is
duplicated by `SafeArrayCopy` into a fresh unlocked array. -/
def copy_from (rhs : Option SafeArrayData) : Option SafeArrayData :=
  match rhs with
  | none => none
  | some a => some { a with cLocks := 0 }

/-- `~Basic_safe_array`: `SafeArrayDestroy` is called only when owning;
it accepts a null handle as a no-op. -/
def arrayDestroy (isOwns : Bool) (x : Option SafeArrayData) :
    Option SafeArrayData :=
  if isOwns then none else x

/-- Locking leaves everything but the lock count unchanged. -/
theorem safeArrayLock_fields (a : SafeArrayData) :
    (safeArrayLock a).cDims = a.cDims ∧
    (safeArrayLock a).rgsabound = a.rgsabound ∧
    (safeArrayLock a).cLocks = a.cLocks + 1 :=
  ⟨rfl, rfl, rfl⟩

theorem boundAt_lock (a : SafeArrayData) (d : Nat) :
    boundAt (safeArrayLock a) d = boundAt a d := rfl

/-- Iterated in-bounds descent succeeds and adds one dimension level per
index, leaving the array header (apart from locks) unchanged. -/
theorem descendAll_ok (idxs : List Nat) :
    ∀ (a : SafeArrayData) (sl : SliceData),
      sl.dim + idxs.length < a.cDims →
      (∀ k, k < idxs.length → idxs.getD k 0 < boundAt a (sl.dim + k)) →
      ∃ a2 sl2, descendAll (a, sl) idxs = .ok (a2, sl2) ∧
        sl2.dim = sl.dim + idxs.length ∧
        a2.cDims = a.cDims ∧ a2.rgsabound = a.rgsabound := by
  induction idxs with
  | nil =>
    intro a sl hdim hb
    exact ⟨a, sl, rfl, by simp, rfl, rfl⟩
  | cons i rest ih =>
    intro a sl hdim hb
    have hd1 : sl.dim + 1 < a.cDims := by
      simp only [List.length_cons] at hdim
      omega
    have hi : i < boundAt a sl.dim := by
      have := hb 0 (by simp)
      simpa using this
    have hms : make_slice a sl i =
        (.ok ⟨sl.dim + 1, sl.absolute_offset + i * sliceSize (safeArrayLock a) (sl.dim + 1),
              sliceSize (safeArrayLock a) (sl.dim + 1)⟩,
         safeArrayLock a) := by
      unfold make_slice
      rw [if_neg (not_not_intro hd1), if_neg (not_not_intro hi)]
      rfl
    have hstep : descend (a, sl) i =
        .ok (safeArrayLock a,
          ⟨sl.dim + 1, sl.absolute_offset + i * sliceSize (safeArrayLock a) (sl.dim + 1),
           sliceSize (safeArrayLock a) (sl.dim + 1)⟩) := by
      unfold descend
      rw [hms]
    have hrec := ih (safeArrayLock a)
      ⟨sl.dim + 1, sl.absolute_offset + i * sliceSize (safeArrayLock a) (sl.dim + 1),
       sliceSize (safeArrayLock a) (sl.dim + 1)⟩
      (by simpa using (by simp only [List.length_cons] at hdim; omega :
        sl.dim + 1 + rest.length < a.cDims))
      (by
        intro k hk
        have := hb (k + 1) (by simp; omega)
        simpa [Nat.add_assoc, Nat.add_comm 1 k] using this)
    obtain ⟨a2, sl2, hfold, hdim2, hD2, hR2⟩ := hrec
    refine ⟨a2, sl2, ?_, ?_, ?_, ?_⟩
    · unfold descendAll
      rw [List.foldlM_cons, hstep]
      simpa [descendAll] using hfold
    · simp only [hdim2, List.length_cons]
      omega
    · rw [hD2]; rfl
    · rw [hR2]; rfl

-- -----------------------------------------------------------------------------
-- Claim theorems: SAFEARRAY slices and locks
-- -----------------------------------------------------------------------------

/-- C4: constructing a slice increments the array's lock count by exactly
one, destroying it decrements by exactly one, and for any body that keeps
the count balanced (both on normal and on error exits) the RAII bracket
returns the lock count to its pre-acquisition value. -/
theorem C4_lock_discipline {β : Type} (a : SafeArrayData) (dim off abs : Nat)
    (body : SliceData → SafeArrayData → Except String β × SafeArrayData)
    (hbody : ((body (sliceCtor a dim off abs).1 (sliceCtor a dim off abs).2).2).cLocks
             = ((sliceCtor a dim off abs).2).cLocks) :
    ((sliceCtor a dim off abs).2.cLocks = a.cLocks + 1) ∧
    (∀ a2 : SafeArrayData, (sliceDtor a2).cLocks = a2.cLocks - 1) ∧
    ((withSlice a dim off abs body).2.cLocks = a.cLocks) := by
  refine ⟨rfl, fun a2 => rfl, ?_⟩
  show (sliceDtor (body (sliceCtor a dim off abs).1 (sliceCtor a dim off abs).2).2).cLocks
    = a.cLocks
  unfold sliceDtor
  simp only [hbody]
  show (a.cLocks + 1) - 1 = a.cLocks
  omega

/-- C4 witness: a 2-dimensional array with lock count 5; a body that exits
via the error path still leaves the lock count restored to 5. -/
theorem C4_lock_discipline_witness :
    (withSlice ⟨2, 0, 16, 5, 0, [⟨2, 0⟩, ⟨3, 0⟩]⟩ 0 0 0
      (fun _ s => ((.error "boom" : Except String Nat), s))).2.cLocks = 5 :=
  (C4_lock_discipline ⟨2, 0, 16, 5, 0, [⟨2, 0⟩, ⟨3, 0⟩]⟩ 0 0 0
    (fun _ s => ((.error "boom" : Except String Nat), s)) rfl).2.2

/-- C5: the top slice has dimension 0; after `dimension_count() - 1`
in-bounds descents the slice is a vector; one further descent fails with
the dimension-overflow error for every index. -/
theorem C5_descent_reaches_vector (a : SafeArrayData) (idxs : List Nat)
    (hD : 1 ≤ a.cDims)
    (hlen : idxs.length = a.cDims - 1)
    (hb : ∀ k, k < idxs.length → idxs.getD k 0 < boundAt a k) :
    (topSlice a).1.dim = 0 ∧
    ∃ a2 sl2, descendAll ((topSlice a).2, (topSlice a).1) idxs = .ok (a2, sl2) ∧
      is_vector a2 sl2 = true ∧
      ∀ idx, (make_slice a2 sl2 idx).1 = .error "Safe_array dimension overflow" := by
  refine ⟨rfl, ?_⟩
  obtain ⟨a2, sl2, hfold, hdim2, hD2, hR2⟩ :=
    descendAll_ok idxs (topSlice a).2 (topSlice a).1
      (by
        show (0 : Nat) + idxs.length < a.cDims
        omega)
      (by
        intro k hk
        show idxs.getD k 0 < boundAt (safeArrayLock a) (0 + k)
        rw [boundAt_lock]
        simpa using hb k hk)
  have hcd : a2.cDims = a.cDims := by
    rw [hD2]; rfl
  have hdim2a : sl2.dim = a.cDims - 1 := by
    rw [hdim2]
    show (0 : Nat) + idxs.length = a.cDims - 1
    omega
  refine ⟨a2, sl2, hfold, ?_, ?_⟩
  · unfold is_vector
    rw [hdim2a, hcd]
    exact Nat.beq_eq_true_eq _ _ ▸ rfl
  · intro idx
    unfold make_slice
    rw [if_pos (by rw [hdim2a, hcd]; omega)]

/-- C5 witness: for a 2-dimensional array with bounds [2, 3], one descent
from the top slice yields a vector slice (projected: the top slice has
dimension 0). -/
theorem C5_descent_reaches_vector_witness :
    (topSlice ⟨2, 0, 16, 0, 0, [⟨2, 0⟩, ⟨3, 0⟩]⟩).1.dim = 0 :=
  (C5_descent_reaches_vector ⟨2, 0, 16, 0, 0, [⟨2, 0⟩, ⟨3, 0⟩]⟩ [1]
    (by decide) (by decide) (by decide)).1

/-- C6: on a non-vector slice, `slice(index)` succeeds exactly when the
index is within the current dimension's element count; otherwise it fails
with the index-overflow error and returns the array state unchanged (in
particular the lock count is untouched). -/
theorem C6_index_bound (a : SafeArrayData) (sl : SliceData) (index : Nat)
    (hnv : sl.dim + 1 < a.cDims) :
    ((make_slice a sl index).1.isOk = true ↔ index < boundAt a sl.dim) ∧
    (¬ index < boundAt a sl.dim →
      make_slice a sl index = (.error "Safe_array index overflow", a)) := by
  unfold make_slice
  rw [if_neg (not_not_intro hnv)]
  by_cases hidx : index < boundAt a sl.dim
  · rw [if_neg (not_not_intro hidx)]
    exact ⟨⟨fun _ => hidx, fun _ => rfl⟩, fun h => absurd hidx h⟩
  · rw [if_pos hidx]
    exact ⟨⟨fun h => by simp [Except.isOk, Except.toBool] at h, fun h => absurd h hidx⟩,
      fun _ => rfl⟩

/-- C6 witness: index 5 is out of bounds for the first dimension (2
elements) of a 2-dimensional array; the call fails with the index error
and leaves the array untouched. -/
theorem C6_index_bound_witness :
    make_slice ⟨2, 0, 16, 0, 0, [⟨2, 0⟩, ⟨3, 0⟩]⟩ ⟨0, 0, 6⟩ 5 =
      (.error "Safe_array index overflow", ⟨2, 0, 16, 0, 0, [⟨2, 0⟩, ⟨3, 0⟩]⟩) :=
  (C6_index_bound ⟨2, 0, 16, 0, 0, [⟨2, 0⟩, ⟨3, 0⟩]⟩ ⟨0, 0, 6⟩ 5 (by decide)).2
    (by decide)

/-- C10: on a default-constructed (null-handle) array wrapper every
accessor that needs the underlying `SAFEARRAY` fails with an error —
`data()`, `dimension_count()`, `features()`, `element_size()`,
`lock_count()` and `slice()` — while destruction, swap, copy-from and
`data_ptr()` remain well-defined total operations. -/
theorem C10_null_handle_safety (x : Option SafeArrayData) (b : Bool) :
    dataOf none = .error "cannot use invalid instance of Safe_array" ∧
    dimension_count none = .error "cannot use invalid instance of Safe_array" ∧
    features none = .error "cannot use invalid instance of Safe_array" ∧
    element_size none = .error "cannot use invalid instance of Safe_array" ∧
    lock_count none = .error "cannot use invalid instance of Safe_array" ∧
    arraySlice none = .error "cannot create Safe_array::Slice: cannot lock SAFEARRAY" ∧
    data_ptr none = none ∧
    arraySwap none x = (x, none) ∧
    copy_from none = none ∧
    arrayDestroy b none = none := by
  refine ⟨rfl, rfl, rfl, rfl, rfl, rfl, rfl, rfl, rfl, ?_⟩
  cases b <;> rfl

/-- C10 witness: application at a concrete non-null swap partner
(projected: `data()` on the null instance fails). -/
theorem C10_null_handle_safety_witness :
    dataOf none = .error "cannot use invalid instance of Safe_array" :=
  (C10_null_handle_safety (some ⟨1, 0, 4, 0, 0, [⟨1, 0⟩]⟩) true).1

-- -----------------------------------------------------------------------------
-- VARIANT model (`src/combase.hpp`, `Basic_variant`)
-- -----------------------------------------------------------------------------

/-- `VARENUM` tag values (wtypes.h). -/
def VT_I2 : Nat := 2
def VT_I4 : Nat := 3
def VT_R4 : Nat := 4
def VT_R8 : Nat := 5
def VT_DATE : Nat := 7
def VT_BSTR : Nat := 8
def VT_BOOL : Nat := 11
def VT_I1 : Nat := 16
def VT_UI1 : Nat := 17
def VT_UI2 : Nat := 18
def VT_UI4 : Nat := 19
def VT_I8 : Nat := 20
def VT_UI8 : Nat := 21
def VT_INT : Nat := 22
def VT_UINT : Nat := 23
def VT_ARRAY : Nat := 8192
def VT_BYREF : Nat := 16384
def VARIANT_TRUE : Nat := 65535

/-- A `VARIANT`: the 16-bit type tag `vt` plus the 8-byte union payload as
raw little-endian bits.  Every union member reads the low bytes of the
same storage, so e.g. `lVal` and `intVal` decode identically, matching
the Windows ABI. -/
structure VariantData where
  vt : Nat
  bits : Nat
deriving DecidableEq

/-- Two's-complement decoding of the low `w` bits. -/
def signedOf (w n : Nat) : Int :=
  if n % 2 ^ w < 2 ^ (w - 1) then (n % 2 ^ w : Int)
  else (n % 2 ^ w : Int) - 2 ^ w

def cVal (v : VariantData) : Int := signedOf 8 v.bits
def bVal (v : VariantData) : Nat := v.bits % 2 ^ 8
def iVal (v : VariantData) : Int := signedOf 16 v.bits
def uiVal (v : VariantData) : Nat := v.bits % 2 ^ 16
def lVal (v : VariantData) : Int := signedOf 32 v.bits
def intVal (v : VariantData) : Int := signedOf 32 v.bits
def ulVal (v : VariantData) : Nat := v.bits % 2 ^ 32
def uintVal (v : VariantData) : Nat := v.bits % 2 ^ 32
def llVal (v : VariantData) : Int := signedOf 64 v.bits
def ullVal (v : VariantData) : Nat := v.bits % 2 ^ 64
def fltVal (v : VariantData) : Nat := v.bits % 2 ^ 32
def dblVal (v : VariantData) : Nat := v.bits % 2 ^ 64
def boolVal (v : VariantData) : Nat := v.bits % 2 ^ 16
def dateVal (v : VariantData) : Nat := v.bits % 2 ^ 64
def bstrVal (v : VariantData) : Nat := v.bits % 2 ^ 64
def byrefVal (v : VariantData) : Nat := v.bits % 2 ^ 64
def parrayVal (v : VariantData) : Nat := v.bits % 2 ^ 64

/-- `Basic_variant::is`: the tag test of the templated `Basic_variant`
(`src/combase.hpp` line 721): `bool(data_.vt & tp)` — a bitwise AND, not
an equality comparison. -/
def varIs (v : VariantData) (tp : Nat) : Bool :=
  (v.vt &&& tp) != 0

def to_int8 (v : VariantData) : Except String Int :=
  if varIs v VT_I1 then .ok (cVal v) else .error "cannot convert Variant to int8"

def to_uint8 (v : VariantData) : Except String Nat :=
  if varIs v VT_UI1 then .ok (bVal v) else .error "cannot convert Variant to uint8"

def to_int16 (v : VariantData) : Except String Int :=
  if varIs v VT_I2 then .ok (iVal v) else .error "cannot convert Variant to int16"

def to_uint16 (v : VariantData) : Except String Nat :=
  if varIs v VT_UI2 then .ok (uiVal v) else .error "cannot convert Variant to uint16"

def to_int32 (v : VariantData) : Except String Int :=
  if varIs v VT_I4 then .ok (lVal v)
  else if varIs v VT_INT then .ok (intVal v)
  else .error "cannot convert Variant to int32"

def to_uint32 (v : VariantData) : Except String Nat :=
  if varIs v VT_UI4 then .ok (ulVal v)
  else if varIs v VT_UINT then .ok (uintVal v)
  else .error "cannot convert Variant to uint32"

def to_int64 (v : VariantData) : Except String Int :=
  if varIs v VT_I8 then .ok (llVal v) else .error "cannot convert Variant to int64"

def to_uint64 (v : VariantData) : Except String Nat :=
  if varIs v VT_UI8 then .ok (ullVal v) else .error "cannot convert Variant to uint64"

def to_real32 (v : VariantData) : Except String Nat :=
  if varIs v VT_R4 then .ok (fltVal v) else .error "cannot convert Variant to real32"

def to_real64 (v : VariantData) : Except String Nat :=
  if varIs v VT_R8 then .ok (dblVal v) else .error "cannot convert Variant to real64"

def to_bool (v : VariantData) : Except String Bool :=
  if varIs v VT_BOOL then .ok (boolVal v == VARIANT_TRUE)
  else .error "cannot convert Variant to bool"

def to_date (v : VariantData) : Except String Nat :=
  if varIs v VT_DATE then .ok (dateVal v) else .error "cannot convert Variant to DATE"

def to_wstring (v : VariantData) : Except String Nat :=
  if varIs v VT_BSTR then .ok (bstrVal v)
  else .error "cannot convert Variant to UTF-16 string"

def to_pvoid (v : VariantData) : Except String Nat :=
  if varIs v VT_BYREF then .ok (byrefVal v) else .error "cannot convert Variant to PVOID"

def to_array (v : VariantData) : Except String Nat :=
  if varIs v VT_ARRAY then .ok (parrayVal v)
  else .error "cannot convert Variant to SAFEARRAY"

-- -----------------------------------------------------------------------------
-- Claim theorems: VARIANT accessors
-- -----------------------------------------------------------------------------

/-- C1: the claim demands that a mismatched accessor (outside the
documented VT_I4/VT_INT aliasing) always fail with a type-mismatch error.
The code violates this: because `is()` tests `vt & tp` instead of
`vt == tp`, `to_int8` on a value of kind `uint8` (tag `VT_UI1` = 17,
`17 & 16 ≠ 0`) succeeds and returns a value; the matching accessor
`to_uint8` round-trips the payload as the claim states. -/
theorem C1_mismatched_accessor_succeeds :
    to_uint8 ⟨VT_UI1, 42⟩ = .ok 42 ∧
    VT_UI1 ≠ VT_I1 ∧
    to_int8 ⟨VT_UI1, 42⟩ = .ok 42 :=
  ⟨rfl, by decide, rfl⟩

/-- C9: the claim demands that `to_int32` fail for every tag other than
`VT_I4` and `VT_INT`.  The code violates this: with `is()` testing
`vt & tp`, a `VT_I2` (= 2) tagged value satisfies `2 & 3 ≠ 0`, so
`to_int32` succeeds on it instead of raising the type-mismatch error. -/
theorem C9_to_int32_accepts_foreign_tag :
    to_int32 ⟨VT_I2, 7⟩ = .ok 7 ∧
    VT_I2 ≠ VT_I4 ∧
    VT_I2 ≠ VT_INT :=
  ⟨rfl, by decide, by decide⟩

end Winbase
